import Mathlib

/-!
Verification of the phrase-matching and ranking engine of a phrase-to-media
mapping bot. Strings are modelled as lists of characters; the database rows
of the `mappings` table are modelled as `MappingRecord` values, and the table
scan that `Database.search` performs is made explicit by passing the list of
rows as an argument. Timestamps (`created_at`) are ISO strings in the source
and are compared lexicographically by the sort, so they are kept as character
lists ordered by `lexLt`.
-/

/-- Whitespace characters removed by Python `str.strip()` (ASCII range). -/
def pySpace (c : Char) : Bool :=
  c = ' ' || c = '\t' || c = '\n' || c = '\r' || c = '\x0b' || c = '\x0c'

/-- Python `str.strip()`: drop leading and trailing whitespace. -/
def pyStrip (s : List Char) : List Char :=
  ((s.dropWhile pySpace).reverse.dropWhile pySpace).reverse

/-- Python `str.lower()` (character-wise lowering). -/
def pyLower (s : List Char) : List Char := s.map Char.toLower

/-- The normalisation `query.lower().strip()` applied by `Database._score`. -/
def pyNorm (s : List Char) : List Char := pyStrip (pyLower s)

/-- Python `p.startswith(q)` as used in `Database._score`, here `startsWithB q p`. -/
def startsWithB : List Char → List Char → Bool
  | [], _ => true
  | _ :: _, [] => false
  | a :: as, b :: bs => a = b && startsWithB as bs

/-- Python substring test `q in p` as used in `Database._score`, here `containsB q p`. -/
def containsB : List Char → List Char → Bool
  | q, [] => q.isEmpty
  | q, b :: bs => startsWithB q (b :: bs) || containsB q bs

/-- Greedy left-to-right subsequence scan, `Database._is_subsequence(needle, haystack)`:
each character of the needle consumes haystack up to and including its first
remaining occurrence. -/
def subseqB : List Char → List Char → Bool
  | [], _ => true
  | _ :: _, [] => false
  | a :: as, b :: bs => if a = b then subseqB as bs else subseqB (a :: as) bs

/-- `Database._score(query, phrase)`: tiered match score over the normalised
strings, first satisfied tier wins. -/
def score (query phrase : List Char) : Nat :=
  let q := pyNorm query
  let p := pyNorm phrase
  if q.isEmpty || p.isEmpty then 0
  else if q = p then 100
  else if startsWithB q p then 80
  else if containsB q p then 60
  else if subseqB q p then 40
  else 0

/-- A row of the `mappings` table. -/
structure MappingRecord where
  id : Int
  phrase : List Char
  file_id : List Char
  owner_user_id : Option Int
  owner_username : Option (List Char)
  created_at : List Char
deriving DecidableEq

/-- The candidate-building loop of `Database.search`: score every row and keep
the rows with positive score, paired with their score. -/
def scored (query : List Char) (rows : List MappingRecord) : List (Nat × MappingRecord) :=
  rows.filterMap fun r =>
    let s := score query r.phrase
    if 0 < s then some (s, r) else none

/-- Python string `<` (lexicographic by code point). -/
def lexLt : List Char → List Char → Bool
  | _, [] => false
  | [], _ :: _ => true
  | a :: as, b :: bs => if a = b then lexLt as bs else decide (a < b)

/-- Non-strict companion of `lexLt`: `lexLe x y` iff `x` is not above `y`. -/
def lexLe (x y : List Char) : Bool := !(lexLt y x)

/-- Strict order on the sort key `(score, created_at)` used by `Database.search`. -/
def keyLt (x y : Nat × List Char) : Bool :=
  decide (x.1 < y.1) || (x.1 == y.1 && lexLt x.2 y.2)

/-- The comparison realising `candidates.sort(key=lambda t: (t[0], t[1]["created_at"]), reverse=True)`:
an element sorts before another when its key is not strictly smaller. -/
def searchLe (x y : Nat × MappingRecord) : Bool :=
  !(keyLt (x.1, x.2.created_at) (y.1, y.2.created_at))

/-- `Database.search(query, limit)` over an explicit list of table rows:
score and filter, sort descending by `(score, created_at)` (stably), truncate
to `limit`, and return the records. -/
def search (query : List Char) (rows : List MappingRecord) (limit : Nat) : List MappingRecord :=
  (((scored query rows).mergeSort searchLe).take limit).map fun t => t.2

/-- `page_size` fixed to 50 in `BotApp.status_cmd`. -/
def page_size : Nat := 50

/-- The page-clamping arithmetic of `BotApp.status_cmd`: the requested page
(an integer, already parsed; parse failures yield 1 upstream) is clamped to
at least 1, then to the last page, and the fetch offset is derived from it.
Returns `(page, offset)`; the fetch limit is `page_size`. -/
def status_page (requested : Int) (total : Nat) : Nat × Nat :=
  let page : Nat := (max 1 requested).toNat
  let max_page : Nat := max 1 ((total + page_size - 1) / page_size)
  let page2 : Nat := min page max_page
  (page2, (page2 - 1) * page_size)

/-- A row of the `owners` table. -/
structure OwnerRow where
  user_id : Int
  username : Option (List Char)
  added_at : List Char
deriving DecidableEq

/-- `Database.add_owner`: `INSERT OR IGNORE` keyed on `user_id`. -/
def db_add_owner (owners : List OwnerRow) (uid : Int) (uname : Option (List Char))
    (now : List Char) : List OwnerRow :=
  if owners.any fun r => r.user_id == uid then owners
  else owners ++ [⟨uid, uname, now⟩]

/-- `Database.is_owner`: membership in the `owners` table. -/
def db_is_owner (owners : List OwnerRow) (uid : Int) : Bool :=
  owners.any fun r => r.user_id == uid

/-- The application state relevant to ownership: the owner ids loaded from
configuration at startup, and the `owners` table of the store. -/
structure BotState where
  owner_ids : List Int
  owners : List OwnerRow
deriving DecidableEq

/-- `BotApp._is_owner`: `bool(user_id) and int(user_id) in set(config.owner_ids)`.
`bool(user_id)` is false for a missing id and for id 0. -/
def bot_is_owner (st : BotState) (user_id : Option Int) : Bool :=
  match user_id with
  | none => false
  | some uid => !(uid == 0) && st.owner_ids.contains uid

/-- The effect of `BotApp.add_owner_cmd` reaching `Database.add_owner`: only
the owners table changes; the configured owner ids do not. -/
def bot_add_owner (st : BotState) (uid : Int) (uname : Option (List Char))
    (now : List Char) : BotState :=
  { st with owners := db_add_owner st.owners uid uname now }

/-- The scoring tiers as the specification words them: mathematical
predicates (equality, list-prefix `<+:`, list-infix `<:+:`, sparse
subsequence `Sublist`) over already-normalised strings, first satisfied tier
wins. Used to compare `score` against the specification. -/
def specTierScore (q p : List Char) : Nat :=
  if q = [] ∨ p = [] then 0
  else if q = p then 100
  else if q <+: p then 80
  else if q <:+: p then 60
  else if List.Sublist q p then 40
  else 0

theorem startsWithB_iff : ∀ (q p : List Char), startsWithB q p = true ↔ q <+: p
  | [], p => by simp [startsWithB, List.nil_prefix]
  | a :: as, [] => by simp [startsWithB, List.prefix_nil]
  | a :: as, b :: bs => by
    simp [startsWithB, List.cons_prefix_cons, startsWithB_iff as bs]

theorem containsB_iff : ∀ (q p : List Char), containsB q p = true ↔ q <:+: p
  | q, [] => by
    cases q <;> simp [containsB]
  | q, b :: bs => by
    simp [containsB, List.infix_cons_iff, startsWithB_iff, containsB_iff q bs]

theorem subseqB_iff : ∀ (q p : List Char), subseqB q p = true ↔ List.Sublist q p
  | [], p => by simp [subseqB, List.nil_sublist]
  | a :: as, [] => by simp [subseqB, List.sublist_nil]
  | a :: as, b :: bs => by
    by_cases hab : a = b
    · subst hab
      simp [subseqB, List.cons_sublist_cons, subseqB_iff as bs]
    · simp only [subseqB, if_neg hab]
      rw [subseqB_iff (a :: as) bs, List.sublist_cons_iff]
      constructor
      · exact Or.inl
      · rintro (h | ⟨r, hr, _⟩)
        · exact h
        · rw [List.cons.injEq] at hr
          exact absurd hr.1 hab

/-- The score computed by the code coincides with the specification's tier
list evaluated on the normalised strings. -/
theorem score_eq_tier (query phrase : List Char) :
    score query phrase = specTierScore (pyNorm query) (pyNorm phrase) := by
  simp only [score, specTierScore, Bool.or_eq_true, List.isEmpty_iff,
    startsWithB_iff, containsB_iff, subseqB_iff]

theorem lexLt_asymm : ∀ (a b : List Char), lexLt a b = true → lexLt b a = false
  | _, [], h => by simp [lexLt] at h
  | [], _ :: _, _ => by simp [lexLt]
  | a :: as, b :: bs, h => by
    by_cases hab : a = b
    · subst hab
      simp only [lexLt, if_pos rfl] at h ⊢
      exact lexLt_asymm as bs h
    · have hba : b ≠ a := fun hh => hab hh.symm
      simp only [lexLt, if_neg hab, decide_eq_true_eq] at h
      simp only [lexLt, if_neg hba]
      exact decide_eq_false (lt_asymm h)

theorem lexLt_trans : ∀ (a b c : List Char),
    lexLt a b = true → lexLt b c = true → lexLt a c = true
  | _, _, [], _, h2 => by simp [lexLt] at h2
  | [], _, _ :: _, _, _ => by simp [lexLt]
  | _ :: _, [], _ :: _, h1, _ => by simp [lexLt] at h1
  | a :: as, b :: bs, c :: cs, h1, h2 => by
    by_cases hab : a = b <;> by_cases hbc : b = c
    · subst hab; subst hbc
      simp only [lexLt, if_pos rfl] at h1 h2 ⊢
      exact lexLt_trans as bs cs h1 h2
    · subst hab
      simp only [lexLt, if_pos rfl, if_neg hbc] at h1 h2
      simp only [lexLt, if_neg hbc]
      exact h2
    · subst hbc
      simp only [lexLt, if_neg hab, if_pos rfl] at h1 h2
      simp only [lexLt, if_neg hab]
      exact h1
    · simp only [lexLt, if_neg hab, if_neg hbc, decide_eq_true_eq] at h1 h2
      have hac : a < c := lt_trans h1 h2
      simp only [lexLt, if_neg (ne_of_lt hac), decide_eq_true_eq]
      exact hac

theorem lexLt_connex : ∀ (a b : List Char),
    lexLt a b = false → lexLt b a = false → a = b
  | [], [], _, _ => rfl
  | [], _ :: _, h1, _ => by simp [lexLt] at h1
  | _ :: _, [], _, h2 => by simp [lexLt] at h2
  | a :: as, b :: bs, h1, h2 => by
    by_cases hab : a = b
    · subst hab
      simp only [lexLt, if_pos rfl] at h1 h2
      rw [lexLt_connex as bs h1 h2]
    · have hba : b ≠ a := fun hh => hab hh.symm
      simp only [lexLt, if_neg hab, decide_eq_false_iff_not] at h1
      simp only [lexLt, if_neg hba, decide_eq_false_iff_not] at h2
      exact absurd (le_antisymm (le_of_not_lt h2) (le_of_not_lt h1)) hab

theorem lexLt_notLt_trans (a b c : List Char)
    (h1 : lexLt a b = false) (h2 : lexLt b c = false) : lexLt a c = false := by
  cases h3 : lexLt b a with
  | false =>
    rw [lexLt_connex a b h1 h3]
    exact h2
  | true =>
    cases h4 : lexLt a c with
    | false => rfl
    | true =>
      have h5 := lexLt_trans b a c h3 h4
      rw [h5] at h2
      cases h2

theorem keyLt_iff (x y : Nat × List Char) :
    keyLt x y = true ↔ (x.1 < y.1 ∨ (x.1 = y.1 ∧ lexLt x.2 y.2 = true)) := by
  simp [keyLt]

theorem keyLt_false_iff (x y : Nat × List Char) :
    keyLt x y = false ↔ (y.1 ≤ x.1 ∧ (x.1 = y.1 → lexLt x.2 y.2 = false)) := by
  rw [Bool.eq_false_iff, Ne, keyLt_iff]
  constructor
  · intro h
    push_neg at h
    exact ⟨h.1, fun he => Bool.eq_false_iff.mpr (h.2 he)⟩
  · rintro ⟨hle, himp⟩ (hlt | ⟨he, hl⟩)
    · omega
    · rw [himp he] at hl
      cases hl

theorem keyLt_asymm (x y : Nat × List Char) (h : keyLt x y = true) :
    keyLt y x = false := by
  rw [keyLt_iff] at h
  rw [keyLt_false_iff]
  rcases h with h | ⟨he, hl⟩
  · exact ⟨le_of_lt h, fun hh => absurd h (by omega)⟩
  · exact ⟨le_of_eq he, fun _ => lexLt_asymm _ _ hl⟩

theorem keyLt_notLt_trans (x y z : Nat × List Char)
    (h1 : keyLt x y = false) (h2 : keyLt y z = false) : keyLt x z = false := by
  rw [keyLt_false_iff] at h1 h2 ⊢
  obtain ⟨ha, hb⟩ := h1
  obtain ⟨hc, hd⟩ := h2
  refine ⟨le_trans hc ha, fun he => ?_⟩
  have e1 : x.1 = y.1 := by omega
  have e2 : y.1 = z.1 := by omega
  exact lexLt_notLt_trans _ _ _ (hb e1) (hd e2)

theorem searchLe_trans (x y z : Nat × MappingRecord)
    (h1 : searchLe x y = true) (h2 : searchLe y z = true) : searchLe x z = true := by
  simp only [searchLe, Bool.not_eq_true'] at h1 h2 ⊢
  exact keyLt_notLt_trans _ _ _ h1 h2

theorem searchLe_total (x y : Nat × MappingRecord) :
    (searchLe x y || searchLe y x) = true := by
  simp only [searchLe, Bool.or_eq_true, Bool.not_eq_true']
  cases h : keyLt (x.1, x.2.created_at) (y.1, y.2.created_at) with
  | false => exact Or.inl rfl
  | true => exact Or.inr (keyLt_asymm _ _ h)

theorem scored_mem (query : List Char) (rows : List MappingRecord) :
    ∀ x ∈ scored query rows,
      x.1 = score query x.2.phrase ∧ 0 < x.1 ∧ x.2 ∈ rows := by
  intro x hx
  rcases List.mem_filterMap.mp hx with ⟨r, hr, hfr⟩
  dsimp only at hfr
  split at hfr
  · rename_i hpos
    cases hfr
    exact ⟨rfl, hpos, hr⟩
  · cases hfr

/-- Claim C1: for every query and phrase, `score` is one of
{0, 40, 60, 80, 100}, and it is computed on the lowercased, whitespace-trimmed
forms of both strings by the first satisfied tier in the fixed order
empty → 0, exact → 100, phrase-starts-with-query → 80, query-inside-phrase → 60,
query-subsequence-of-phrase → 40, otherwise 0. -/
theorem c1_score_tiers (query phrase : List Char) :
    (score query phrase = 0 ∨ score query phrase = 40 ∨ score query phrase = 60 ∨
      score query phrase = 80 ∨ score query phrase = 100) ∧
    score query phrase = specTierScore (pyNorm query) (pyNorm phrase) := by
  refine ⟨?_, score_eq_tier query phrase⟩
  rw [score_eq_tier]
  unfold specTierScore
  split_ifs <;> simp

/-- Claim C3 as stated is false: for the empty query and the empty phrase the
normalised forms are equal, yet the score is 0 rather than 100. -/
theorem c3_counterexample : ¬ (score [] [] = 100 ↔ pyNorm [] = pyNorm []) := by
  decide

/-- Claim C3 (amended): `score` equals 100 iff the lowercased,
whitespace-trimmed forms of query and phrase are equal and non-empty. -/
theorem c3_exact_match_iff (query phrase : List Char) :
    score query phrase = 100 ↔
      (pyNorm query = pyNorm phrase ∧ pyNorm query ≠ []) := by
  rw [score_eq_tier]
  unfold specTierScore
  split_ifs with h1 h2 h3 h4 h5
  · constructor
    · intro h
      exact absurd h (by decide)
    · rintro ⟨hqp, hq⟩
      rcases h1 with h | h
      · exact absurd h hq
      · exact absurd (hqp.trans h) hq
  · constructor
    · intro _
      exact ⟨h2, fun hq => h1 (Or.inl hq)⟩
    · intro _
      rfl
  · constructor
    · intro h
      exact absurd h (by decide)
    · rintro ⟨hqp, _⟩
      exact absurd hqp h2
  · constructor
    · intro h
      exact absurd h (by decide)
    · rintro ⟨hqp, _⟩
      exact absurd hqp h2
  · constructor
    · intro h
      exact absurd h (by decide)
    · rintro ⟨hqp, _⟩
      exact absurd hqp h2
  · constructor
    · intro h
      exact absurd h (by decide)
    · rintro ⟨hqp, _⟩
      exact absurd hqp h2

/-- Claim C4: when both normalised strings are non-empty and the normalised
query is neither equal to, a list-prefix of, nor a list-infix of the
normalised phrase, the score is 40 exactly when every character of the
normalised query appears in the normalised phrase in order. -/
theorem c4_subsequence_tier (query phrase : List Char)
    (h1 : pyNorm query ≠ []) (h2 : pyNorm phrase ≠ [])
    (h3 : pyNorm query ≠ pyNorm phrase)
    (h4 : ¬ pyNorm query <+: pyNorm phrase)
    (h5 : ¬ pyNorm query <:+: pyNorm phrase) :
    (score query phrase = 40 ↔ List.Sublist (pyNorm query) (pyNorm phrase)) := by
  rw [score_eq_tier]
  unfold specTierScore
  rw [if_neg (not_or.mpr ⟨h1, h2⟩), if_neg h3, if_neg h4, if_neg h5]
  split_ifs with h6
  · simp [h6]
  · simp [h6]

/-- Witness for C4 at the specification's concrete scenario:
query "mrn" against phrase "morning" scores 40. -/
theorem c4_subsequence_tier_witness :
    score ['m', 'r', 'n'] ['m', 'o', 'r', 'n', 'i', 'n', 'g'] = 40 :=
  (c4_subsequence_tier ['m', 'r', 'n'] ['m', 'o', 'r', 'n', 'i', 'n', 'g']
    (by decide) (by decide) (by decide) (by decide) (by decide)).mpr (by decide)

/-- Claim C10: for any phrase with non-empty normalised form, querying with
the phrase itself scores 100, so a stored record queried with its own phrase
text survives the positive-score filter of `Database.search` (it is among the
scored candidates kept before ranking and truncation). -/
theorem c10_self_query (p : List Char) (h : pyNorm p ≠ []) :
    score p p = 100 ∧
      ∀ (rows : List MappingRecord) (r : MappingRecord),
        r ∈ rows → r.phrase = p → r ∈ (scored p rows).map fun t => t.2 := by
  have hs : score p p = 100 := by
    rw [score_eq_tier]
    unfold specTierScore
    rw [if_neg (not_or.mpr ⟨h, h⟩), if_pos rfl]
  refine ⟨hs, ?_⟩
  intro rows r hr hp
  refine List.mem_map.mpr ⟨(100, r), ?_, rfl⟩
  refine List.mem_filterMap.mpr ⟨r, hr, ?_⟩
  simp [hp, hs]

/-- Witness for C10 on a concrete record and store. -/
theorem c10_self_query_witness :
    score ['h', 'i'] ['h', 'i'] = 100 ∧
      (⟨1, ['h', 'i'], ['f'], none, none, ['t']⟩ : MappingRecord) ∈
        (scored ['h', 'i']
          [⟨1, ['h', 'i'], ['f'], none, none, ['t']⟩]).map fun t => t.2 :=
  ⟨(c10_self_query ['h', 'i'] (by decide)).1,
    (c10_self_query ['h', 'i'] (by decide)).2
      [⟨1, ['h', 'i'], ['f'], none, none, ['t']⟩]
      ⟨1, ['h', 'i'], ['f'], none, none, ['t']⟩ (by simp) rfl⟩

/-- Claim C2: the sequence returned by `search` is sorted with scores
non-increasing, and among records of equal score the `created_at` keys are
non-increasing in the lexicographic string order used by the sort. -/
theorem c2_search_sorted (query : List Char) (rows : List MappingRecord) (limit : Nat) :
    List.Pairwise (fun a b : MappingRecord =>
      score query b.phrase ≤ score query a.phrase ∧
        (score query a.phrase = score query b.phrase →
          lexLe b.created_at a.created_at = true))
      (search query rows limit) := by
  have hsorted : List.Pairwise (fun a b => searchLe a b = true)
      ((scored query rows).mergeSort searchLe) :=
    List.sorted_mergeSort (fun a b c => searchLe_trans a b c)
      (fun a b => searchLe_total a b) (scored query rows)
  have htake : List.Pairwise (fun a b => searchLe a b = true)
      (((scored query rows).mergeSort searchLe).take limit) :=
    List.Pairwise.sublist (List.take_sublist _ _) hsorted
  have hmem2 : ∀ x ∈ ((scored query rows).mergeSort searchLe).take limit,
      x.1 = score query x.2.phrase := by
    intro x hx
    have hx2 : x ∈ scored query rows :=
      (List.mergeSort_perm (scored query rows) searchLe).mem_iff.mp
        ((List.take_sublist _ _).subset hx)
    exact (scored_mem query rows x hx2).1
  unfold search
  rw [List.pairwise_map]
  refine List.Pairwise.imp_of_mem ?_ htake
  intro a b ha hb hab
  have ha1 := hmem2 a ha
  have hb1 := hmem2 b hb
  rw [searchLe, Bool.not_eq_true', keyLt_false_iff] at hab
  constructor
  · rw [← ha1, ← hb1]
    exact hab.1
  · intro hs
    have he : a.1 = b.1 := by rw [ha1, hb1, hs]
    rw [lexLe, Bool.not_eq_true']
    exact hab.2 he

/-- Claim C5: every record returned by `search` is one of the given rows and
its phrase scores positively against the query; zero-scoring rows never
appear. -/
theorem c5_search_members (query : List Char) (rows : List MappingRecord) (limit : Nat)
    (r : MappingRecord) (hr : r ∈ search query rows limit) :
    r ∈ rows ∧ 0 < score query r.phrase := by
  unfold search at hr
  rcases List.mem_map.mp hr with ⟨t, ht, hteq⟩
  have ht2 : t ∈ scored query rows :=
    (List.mergeSort_perm (scored query rows) searchLe).mem_iff.mp
      ((List.take_sublist _ _).subset ht)
  have hm := scored_mem query rows t ht2
  have hteq2 : t.2 = r := hteq
  rw [← hteq2]
  refine ⟨hm.2.2, ?_⟩
  rw [← hm.1]
  exact hm.2.1

/-- Witness for C5 on a concrete store: the sole matching record returned by
the search is a stored row with positive score. -/
theorem c5_search_members_witness :
    (⟨1, ['h', 'i'], ['f'], none, none, ['t']⟩ : MappingRecord) ∈
        [(⟨1, ['h', 'i'], ['f'], none, none, ['t']⟩ : MappingRecord)] ∧
      0 < score ['h', 'i']
        (⟨1, ['h', 'i'], ['f'], none, none, ['t']⟩ : MappingRecord).phrase :=
  c5_search_members ['h', 'i'] [⟨1, ['h', 'i'], ['f'], none, none, ['t']⟩] 10
    ⟨1, ['h', 'i'], ['f'], none, none, ['t']⟩ (by
      unfold search
      rw [show scored ['h', 'i'] [⟨1, ['h', 'i'], ['f'], none, none, ['t']⟩] =
          [(100, ⟨1, ['h', 'i'], ['f'], none, none, ['t']⟩)] from by decide,
        List.mergeSort_singleton]
      decide)

/-- Claim C6: `search` with limit k returns at most k records, and its result
is a list-prefix of the result of the same search with limit k+1. -/
theorem c6_truncation (query : List Char) (rows : List MappingRecord) (k : Nat) :
    (search query rows k).length ≤ k ∧
      search query rows k <+: search query rows (k + 1) := by
  constructor
  · unfold search
    rw [List.length_map, List.length_take]
    exact inf_le_left
  · unfold search
    have htt : ((scored query rows).mergeSort searchLe).take k <+:
        ((scored query rows).mergeSort searchLe).take (k + 1) := by
      refine ⟨(((scored query rows).mergeSort searchLe).take (k + 1)).drop k, ?_⟩
      rw [show ((scored query rows).mergeSort searchLe).take k =
          (((scored query rows).mergeSort searchLe).take (k + 1)).take k by
        rw [List.take_take, inf_eq_left.mpr (Nat.le_succ k)]]
      exact List.take_append_drop _ _
    rcases htt with ⟨t, ht⟩
    exact ⟨t.map fun x => x.2, by rw [← List.map_append, ht]⟩

theorem pySpace_toLower (c : Char) (h : pySpace c = true) : Char.toLower c = c := by
  simp only [pySpace, Bool.or_eq_true, decide_eq_true_eq] at h
  rcases h with ((((h | h) | h) | h) | h) | h <;> subst h <;> decide

theorem norm_of_all_space (query : List Char) (h : ∀ c ∈ query, pySpace c = true) :
    pyNorm query = [] := by
  have h2 : ∀ c ∈ pyLower query, pySpace c = true := by
    intro c hc
    rcases List.mem_map.mp hc with ⟨d, hd, hdc⟩
    rw [← hdc, pySpace_toLower d (h d hd)]
    exact h d hd
  unfold pyNorm pyStrip
  rw [List.dropWhile_eq_nil_iff.mpr h2]
  rfl

/-- Claim C7: for a query made only of whitespace (the empty query included),
`search` totally evaluates to the empty sequence, whatever the stored rows
and the limit are. -/
theorem c7_whitespace_query (query : List Char) (h : ∀ c ∈ query, pySpace c = true)
    (rows : List MappingRecord) (limit : Nat) :
    search query rows limit = [] := by
  have hn : pyNorm query = [] := norm_of_all_space query h
  have hs : ∀ r : MappingRecord, score query r.phrase = 0 := by
    intro r
    rw [score_eq_tier, hn]
    unfold specTierScore
    rw [if_pos (Or.inl rfl)]
  have hsc : scored query rows = [] := by
    rw [scored, List.filterMap_eq_nil_iff]
    intro r hr
    simp [hs r]
  unfold search
  rw [hsc, List.mergeSort_nil]
  simp

/-- Witness for C7: a whitespace query against a non-empty store. -/
theorem c7_whitespace_query_witness :
    search [' ', '\t'] [⟨1, ['h', 'i'], ['f'], none, none, ['t']⟩] 10 = [] :=
  c7_whitespace_query [' ', '\t'] (by decide)
    [⟨1, ['h', 'i'], ['f'], none, none, ['t']⟩] 10

/-- Claim C8: for a total of at least one mapping, the effective page is
clamped to [1, ceil(total / 50)] — requests below 1 become 1, requests above
the maximum become the maximum, in-range requests are kept — and the fetch
offset is (page - 1) * 50 with fetch limit `page_size` = 50. The last two
conjuncts pin `(total + page_size - 1) / page_size` down as the ceiling of
total / 50. -/
theorem c8_page_clamping (requested : Int) (total : Nat) (h : 1 ≤ total) :
    1 ≤ (status_page requested total).1 ∧
      (status_page requested total).1 ≤ (total + page_size - 1) / page_size ∧
      (requested < 1 → (status_page requested total).1 = 1) ∧
      ((((total + page_size - 1) / page_size : Nat) : Int) < requested →
        (status_page requested total).1 = (total + page_size - 1) / page_size) ∧
      ((1 : Int) ≤ requested →
        requested ≤ (((total + page_size - 1) / page_size : Nat) : Int) →
        (((status_page requested total).1 : Nat) : Int) = requested) ∧
      (status_page requested total).2 =
        ((status_page requested total).1 - 1) * page_size ∧
      total ≤ ((total + page_size - 1) / page_size) * page_size ∧
      ((total + page_size - 1) / page_size - 1) * page_size < total := by
  unfold status_page page_size
  dsimp only
  omega

/-- Witness for C8: requested page 7 of 120 mappings is clamped to the last
page, 3, with offset 100. -/
theorem c8_page_clamping_witness :
    (status_page 7 120).1 = (120 + page_size - 1) / page_size ∧
      (status_page 7 120).2 = ((status_page 7 120).1 - 1) * page_size :=
  ⟨(c8_page_clamping 7 120 (by decide)).2.2.2.1 (by decide),
    (c8_page_clamping 7 120 (by decide)).2.2.2.2.2.1⟩

/-- Claim C9: the permission check `_is_owner` reads only the configured
owner ids, so it is invariant across owner-store states; in particular, for
a user id absent from the configuration it stays false even immediately
after `add_owner` succeeded for that id in the store. -/
theorem c9_owner_check_config_only (st : BotState) (uid : Int)
    (uname : Option (List Char)) (now : List Char) (h : uid ∉ st.owner_ids) :
    (∀ st2 : BotState, st2.owner_ids = st.owner_ids →
        ∀ u, bot_is_owner st2 u = bot_is_owner st u) ∧
      db_is_owner (bot_add_owner st uid uname now).owners uid = true ∧
      bot_is_owner (bot_add_owner st uid uname now) (some uid) = false := by
  refine ⟨?_, ?_, ?_⟩
  · intro st2 he u
    cases u with
    | none => rfl
    | some v => simp [bot_is_owner, he]
  · unfold bot_add_owner db_add_owner db_is_owner
    dsimp only
    split
    · rename_i hany
      exact hany
    · rw [List.any_append]
      simp
  · unfold bot_add_owner bot_is_owner
    dsimp only
    have hc : st.owner_ids.contains uid = false := by simpa using h
    rw [hc]
    simp

/-- Witness for C9: user 2 is not among the configured owners [1]; adding 2
to the store makes the store membership true while the permission check on 2
stays false. -/
theorem c9_owner_check_config_only_witness :
    db_is_owner (bot_add_owner ⟨[1], []⟩ 2 none ['t']).owners 2 = true ∧
      bot_is_owner (bot_add_owner ⟨[1], []⟩ 2 none ['t']) (some 2) = false :=
  ⟨(c9_owner_check_config_only ⟨[1], []⟩ 2 none ['t'] (by decide)).2.1,
    (c9_owner_check_config_only ⟨[1], []⟩ 2 none ['t'] (by decide)).2.2⟩
